import Mathlib

/-!
A shallow embedding, in Lean, of the mj3gc per-key admission-control and
accounting store (Go package `mj3gc`) together with its credential
extraction layer (`extractKeyFromRequest`, and the access provider's
`extractAPIKey` / `Authenticate` / `isStrictSource`), and theorems about
their behavior.

Modelling conventions:
* Go `int` / `int64` fields are embedded as unbounded `Int`; machine-width
  wrap-around is outside the model (every store operation changes each
  counter by at most 1).
* `time.Time` is embedded as `Int`; the Go zero time is `0`.
* The Go map `Store.inflight : map[string]int` is a total function
  `String → Int` (a missing entry reads as 0, exactly as a Go map read).
* `strings.TrimSpace`, `strings.ToLower` (ASCII range suffices for the
  scheme comparisons performed by the code), `strings.EqualFold`,
  `strings.HasPrefix` and `strings.SplitN _ " " 2` are embedded as the
  executable character-list functions below.
* JSON (de)serialisation of `Data` is treated as the identity on decoded
  payloads; the backing file's content is modelled by `FileState`.
* The store's mutex serialises operations, so concurrent executions are
  modelled as sequences of atomic operations (`StoreOp` lists).
-/

namespace Mj3gc

/-- The character set trimmed by Go's `strings.TrimSpace` (`unicode.IsSpace`). -/
def isSpaceChar (c : Char) : Bool :=
  c == ' ' || c == '\t' || c == '\n' || c == '\x0b' || c == '\x0c' || c == '\r'
    || c == '\x85' || c == '\xa0' || c == '\u1680'
    || c == '\u2000' || c == '\u2001' || c == '\u2002' || c == '\u2003'
    || c == '\u2004' || c == '\u2005' || c == '\u2006' || c == '\u2007'
    || c == '\u2008' || c == '\u2009' || c == '\u200a'
    || c == '\u2028' || c == '\u2029' || c == '\u202f' || c == '\u205f' || c == '\u3000'

/-- Embedding of Go `strings.TrimSpace`. -/
def goTrim (s : String) : String :=
  ⟨((s.data.dropWhile isSpaceChar).reverse.dropWhile isSpaceChar).reverse⟩

/-- ASCII lower-casing of one character (the range Go's `strings.ToLower`
affects in the inputs compared by the code: HTTP scheme words). -/
def lowerChar (c : Char) : Char :=
  if 'A' ≤ c ∧ c ≤ 'Z' then Char.ofNat (c.toNat + 32) else c

/-- Embedding of Go `strings.ToLower` (ASCII range). -/
def goToLower (s : String) : String := ⟨s.data.map lowerChar⟩

/-- Embedding of Go `strings.EqualFold` (simple case folding; ASCII range). -/
def equalFold (a b : String) : Bool := goToLower a == goToLower b

/-- Does the second character list begin with the first? -/
def listStart : List Char → List Char → Bool
  | [], _ => true
  | _ :: _, [] => false
  | p :: ps, c :: cs => p == c && listStart ps cs

/-- Embedding of Go `strings.HasPrefix s pat`. -/
def goStartsWith (s pat : String) : Bool := listStart pat.data s.data

/-- Split a character list at its first space, if any. -/
def breakAtSpace : List Char → Option (List Char × List Char)
  | [] => none
  | c :: cs =>
    if c = ' ' then some ([], cs)
    else
      match breakAtSpace cs with
      | none => none
      | some (a, b) => some (c :: a, b)

/-- Embedding of Go `strings.SplitN s " " 2`. -/
def splitN2Space (s : String) : List String :=
  match breakAtSpace s.data with
  | none => [s]
  | some (a, b) => [⟨a⟩, ⟨b⟩]

/-- Go struct `User` (package mj3gc). -/
structure User where
  ID : String
  Username : String
  PasswordHash : String
  Role : String
  Disabled : Bool
  CreatedAt : Int
deriving DecidableEq

/-- Go struct `APIKey` (package mj3gc). -/
structure APIKey where
  ID : String
  Key : String
  Label : String
  UserID : String
  Enabled : Bool
  TotalLimit : Int
  UsedCount : Int
  ConcurrencyLimit : Int
  CompatibilityMode : Bool
  CreatedAt : Int
deriving DecidableEq

/-- Go struct `Data`: the persisted Record Set. -/
structure Data where
  Version : Int
  UpdatedAt : Int
  Users : List User
  APIKeys : List APIKey
deriving DecidableEq

/-- The named errors of package mj3gc (plus the generic validation error
produced by `fmt.Errorf`, the JSON decode error and the read I/O error). -/
inductive StoreErr where
  | keyNotFound
  | keyDisabled
  | quotaExceeded
  | concurrencyExceeded
  | userNotFound
  | invalidCredentials
  | duplicateUsername
  | duplicateAPIKey
  | invalidConfiguration
  | validationFailure
  | decodeError
  | ioError
deriving DecidableEq

/-- The mutable state a `Store` guards: the Record Set and the ephemeral
in-flight counter. -/
structure StoreState where
  data : Data
  inflight : String → Int

/-- Embedding of `Store.FindAPIKey`: trim, reject empty, first key whose
`Key` equals the trimmed credential. -/
def findAPIKey (keys : List APIKey) (value : String) : Option APIKey :=
  let v := goTrim value
  if v = "" then none
  else keys.find? (fun k => k.Key == v)

/-- Embedding of `Store.BeginRequest`. Returns the Go function's result
(the key or the error) together with the post-state. -/
def beginRequest (s : StoreState) (value : String) :
    Except StoreErr APIKey × StoreState :=
  let v := goTrim value
  if v = "" then (.error .keyNotFound, s)
  else
    match s.data.APIKeys.find? (fun k => k.Key == v) with
    | none => (.error .keyNotFound, s)
    | some key =>
      if key.Enabled = false then (.error .keyDisabled, s)
      else if 0 < key.TotalLimit ∧ key.TotalLimit ≤ key.UsedCount then
        (.error .quotaExceeded, s)
      else if 0 < key.ConcurrencyLimit then
        if key.ConcurrencyLimit ≤ s.inflight key.ID then
          (.error .concurrencyExceeded, s)
        else
          (.ok key,
            { s with inflight :=
                fun id => if id = key.ID then s.inflight key.ID + 1 else s.inflight id })
      else (.ok key, s)

/-- The loop body of `Store.EndRequest`: walk the key list, and at the first
key whose `Key` equals the trimmed credential, decrement the in-flight count
(floored at zero, only when a concurrency ceiling applies) and, when `c` is
true, increment that key's `UsedCount`. -/
def endRequestKeys (fl : String → Int) (v : String) (c : Bool) :
    List APIKey → List APIKey × (String → Int)
  | [] => ([], fl)
  | k :: rest =>
    if k.Key = v then
      let fl' :=
        if 0 < k.ConcurrencyLimit ∧ 0 < fl k.ID then
          fun id => if id = k.ID then fl k.ID - 1 else fl id
        else fl
      ((if c then { k with UsedCount := k.UsedCount + 1 } else k) :: rest, fl')
    else
      ((k :: (endRequestKeys fl v c rest).1), (endRequestKeys fl v c rest).2)

/-- Embedding of `Store.EndRequest`. The Go function returns nothing and can
signal no error; the embedding is the total state transformer. -/
def endRequest (s : StoreState) (value : String) (c : Bool) : StoreState :=
  let v := goTrim value
  if v = "" then s
  else
    { data := { s.data with APIKeys := (endRequestKeys s.inflight v c s.data.APIKeys).1 },
      inflight := (endRequestKeys s.inflight v c s.data.APIKeys).2 }

lemma endRequestKeys_count_false (fl : String → Int) (v : String) (l : List APIKey) :
    (endRequestKeys fl v false l).1 = l := by
  induction l with
  | nil => rfl
  | cons k rest ih =>
    by_cases h : k.Key = v
    · simp [endRequestKeys, h]
    · simp [endRequestKeys, h, ih]

lemma endRequestKeys_count_true (fl : String → Int) (v : String) (l : List APIKey) (k : APIKey)
    (hf : l.find? (fun x => x.Key == v) = some k) :
    ∃ l₁ l₂, l = l₁ ++ k :: l₂ ∧
      (endRequestKeys fl v true l).1 = l₁ ++ { k with UsedCount := k.UsedCount + 1 } :: l₂ := by
  induction l with
  | nil => simp at hf
  | cons k0 rest ih =>
    rw [List.find?_cons] at hf
    by_cases h : k0.Key = v
    · simp only [h, beq_self_eq_true] at hf
      obtain rfl : k0 = k := by simpa using hf
      exact ⟨[], rest, by simp, by simp [endRequestKeys, h]⟩
    · have hb : (k0.Key == v) = false := beq_eq_false_iff_ne.mpr h
      simp only [hb] at hf
      obtain ⟨l₁, l₂, hl, he⟩ := ih (by simpa using hf)
      exact ⟨k0 :: l₁, l₂, by simp [hl], by simp [endRequestKeys, h, he]⟩

lemma endRequestKeys_no_match (fl : String → Int) (v : String) (c : Bool) (l : List APIKey)
    (h : ∀ k ∈ l, k.Key ≠ v) : endRequestKeys fl v c l = (l, fl) := by
  induction l with
  | nil => rfl
  | cons k rest ih =>
    have hk : ¬ k.Key = v := h k (by simp)
    have hrest := ih (fun x hx => h x (by simp [hx]))
    simp [endRequestKeys, hk, hrest]

/-- Claim C2: `BeginRequest` resolves the key by exact (trimmed) credential
string and applies its checks in exactly this order: `KeyNotFound` when the
credential is blank or matches no key; `KeyDisabled` when the matched key is
not enabled; `QuotaExceeded` when a lifetime limit is set and already
reached; `ConcurrencyExceeded` when a concurrency ceiling is set and the
in-flight count has reached it; otherwise it increments the in-flight count
(only when a ceiling is set) and returns the key record. -/
theorem C2_beginRequest_check_order (s : StoreState) (value : String) :
    (goTrim value = "" → beginRequest s value = (.error .keyNotFound, s)) ∧
    (s.data.APIKeys.find? (fun x => x.Key == goTrim value) = none →
      beginRequest s value = (.error .keyNotFound, s)) ∧
    (∀ k, s.data.APIKeys.find? (fun x => x.Key == goTrim value) = some k →
      goTrim value ≠ "" →
      ((k.Enabled = false → beginRequest s value = (.error .keyDisabled, s)) ∧
       (k.Enabled = true → 0 < k.TotalLimit → k.TotalLimit ≤ k.UsedCount →
         beginRequest s value = (.error .quotaExceeded, s)) ∧
       (k.Enabled = true → ¬ (0 < k.TotalLimit ∧ k.TotalLimit ≤ k.UsedCount) →
         0 < k.ConcurrencyLimit → k.ConcurrencyLimit ≤ s.inflight k.ID →
         beginRequest s value = (.error .concurrencyExceeded, s)) ∧
       (k.Enabled = true → ¬ (0 < k.TotalLimit ∧ k.TotalLimit ≤ k.UsedCount) →
         0 < k.ConcurrencyLimit → s.inflight k.ID < k.ConcurrencyLimit →
         beginRequest s value =
           (.ok k, { s with inflight :=
             fun id => if id = k.ID then s.inflight k.ID + 1 else s.inflight id })) ∧
       (k.Enabled = true → ¬ (0 < k.TotalLimit ∧ k.TotalLimit ≤ k.UsedCount) →
         k.ConcurrencyLimit ≤ 0 →
         beginRequest s value = (.ok k, s)))) := by
  refine ⟨fun hv => by simp [beginRequest, hv], fun hf => ?_, fun k hf hv => ?_⟩
  · by_cases hv : goTrim value = ""
    · simp [beginRequest, hv]
    · simp [beginRequest, hv, hf]
  · refine ⟨fun hen => by simp [beginRequest, hv, hf, hen],
      fun hen hq1 hq2 => by simp [beginRequest, hv, hf, hen, hq1, hq2],
      fun hen hnq hc hge => by simp [beginRequest, hv, hf, hen, hnq, hc, hge],
      fun hen hnq hc hlt => by simp [beginRequest, hv, hf, hen, hnq, hc, not_le.mpr hlt],
      fun hen hnq hc0 => by simp [beginRequest, hv, hf, hen, hnq, not_lt.mpr hc0]⟩

def kC2 : APIKey := ⟨"id1", "tok", "", "", true, 0, 0, 2, false, 0⟩

def sC2 : StoreState := ⟨⟨1, 0, [], [kC2]⟩, fun _ => 0⟩

theorem C2_beginRequest_check_order_witness :
    (beginRequest sC2 "tok").1 = .ok kC2 ∧
    (beginRequest sC2 "tok").2.inflight "id1" = 1 ∧
    (beginRequest sC2 "tok").2.inflight "other" = 0 := by
  have h := ((C2_beginRequest_check_order sC2 "tok").2.2 kC2 (by rfl)
    (by decide)).2.2.2.1 rfl (by decide) (by decide) (by decide)
  rw [h]
  exact ⟨rfl, by simp [kC2, sC2], by simp [kC2, sC2]⟩

/-- Claim C3: when the credential resolves to an API key, `EndRequest` with
`countAsUsed = false` leaves the Record Set (hence every `UsedCount`)
unchanged, and with `countAsUsed = true` it increments exactly the resolved
key's `UsedCount` by 1, leaving every other key untouched. -/
theorem C3_endRequest_usedCount (s : StoreState) (value : String) (k : APIKey)
    (hres : findAPIKey s.data.APIKeys value = some k) :
    (endRequest s value false).data = s.data ∧
    ∃ l₁ l₂, s.data.APIKeys = l₁ ++ k :: l₂ ∧
      (endRequest s value true).data.APIKeys =
        l₁ ++ { k with UsedCount := k.UsedCount + 1 } :: l₂ := by
  have hv : goTrim value ≠ "" := by
    intro h
    simp [findAPIKey, h] at hres
  have hf : s.data.APIKeys.find? (fun x => x.Key == goTrim value) = some k := by
    simpa [findAPIKey, hv] using hres
  constructor
  · simp [endRequest, hv, endRequestKeys_count_false]
  · obtain ⟨l₁, l₂, hl, he⟩ := endRequestKeys_count_true s.inflight _ _ k hf
    exact ⟨l₁, l₂, hl, by simp [endRequest, hv, he]⟩

def kC3 : APIKey := ⟨"idA", "tokA", "", "", true, 0, 4, 1, false, 0⟩

def kC3b : APIKey := ⟨"idB", "tokB", "", "", true, 0, 9, 0, false, 0⟩

def sC3 : StoreState := ⟨⟨1, 0, [], [kC3, kC3b]⟩, fun _ => 1⟩

theorem C3_endRequest_usedCount_witness :
    findAPIKey sC3.data.APIKeys "tokA" = some kC3 ∧
    (endRequest sC3 "tokA" false).data = sC3.data ∧
    (endRequest sC3 "tokA" true).data.APIKeys =
      [⟨"idA", "tokA", "", "", true, 0, 5, 1, false, 0⟩, kC3b] :=
  ⟨by rfl, (C3_endRequest_usedCount sC3 "tokA" kC3 (by rfl)).1, by rfl⟩

/-- Claim C10: `EndRequest` can signal no error (its embedding is a total
state transformer), and when the credential is blank after trimming or
matches no API key it is a complete no-op: the whole store state — every
`UsedCount` and every in-flight count — is unchanged. -/
theorem C10_endRequest_noop (s : StoreState) (value : String) (c : Bool)
    (h : goTrim value = "" ∨ ∀ k ∈ s.data.APIKeys, k.Key ≠ goTrim value) :
    endRequest s value c = s := by
  rcases h with hv | hk
  · simp [endRequest, hv]
  · by_cases hv : goTrim value = ""
    · simp [endRequest, hv]
    · simp [endRequest, hv, endRequestKeys_no_match _ _ _ _ hk]

def sC10 : StoreState := ⟨⟨1, 0, [], [kC2]⟩, fun _ => 0⟩

theorem C10_endRequest_noop_witness :
    endRequest sC10 "missing" true = sC10 :=
  C10_endRequest_noop sC10 "missing" true (Or.inr (by decide))

/-- One admission-protocol operation on the store (the store's mutex
serialises concurrent callers into such a sequence). -/
inductive StoreOp where
  | beginReq (value : String)
  | endReq (value : String) (c : Bool)

/-- Apply one admission operation to the store state. -/
def applyOp (s : StoreState) : StoreOp → StoreState
  | .beginReq v => (beginRequest s v).2
  | .endReq v c => endRequest s v c

/-- Run a sequence of admission operations. -/
def runOps (s : StoreState) (ops : List StoreOp) : StoreState := ops.foldl applyOp s

/-- The in-flight counter invariant: every count is non-negative, and the
count for a key with a positive concurrency ceiling never exceeds it. -/
def InflightInv (s : StoreState) : Prop :=
  (∀ id, 0 ≤ s.inflight id) ∧
  ∀ k ∈ s.data.APIKeys, 0 < k.ConcurrencyLimit → s.inflight k.ID ≤ k.ConcurrencyLimit

/-- A key's configuration (everything except the mutable `UsedCount`). -/
def configOf (k : APIKey) : APIKey := { k with UsedCount := 0 }

lemma beginRequest_state (s : StoreState) (v : String) :
    (beginRequest s v).2 = s ∨
    ∃ key, key ∈ s.data.APIKeys ∧ 0 < key.ConcurrencyLimit ∧
      s.inflight key.ID < key.ConcurrencyLimit ∧
      (beginRequest s v).2 =
        { s with inflight :=
            fun id => if id = key.ID then s.inflight key.ID + 1 else s.inflight id } := by
  unfold beginRequest
  by_cases hv : goTrim v = ""
  · simp [hv]
  · cases hf : s.data.APIKeys.find? (fun k => k.Key == goTrim v) with
    | none => simp [hv, hf]
    | some key =>
      by_cases hen : key.Enabled = false
      · simp [hv, hf, hen]
      · by_cases hq : 0 < key.TotalLimit ∧ key.TotalLimit ≤ key.UsedCount
        · simp [hv, hf, hen, hq]
        · by_cases hc : 0 < key.ConcurrencyLimit
          · by_cases hge : key.ConcurrencyLimit ≤ s.inflight key.ID
            · simp [hv, hf, hen, hq, hc, hge]
            · refine Or.inr ⟨key, List.mem_of_find?_eq_some hf, hc, not_le.mp hge, ?_⟩
              simp [hv, hf, hen, hq, hc, hge]
          · simp [hv, hf, hen, hq, hc]

lemma beginRequest_data (s : StoreState) (v : String) :
    ((beginRequest s v).2).data = s.data := by
  rcases beginRequest_state s v with h | ⟨key, _, _, _, h⟩ <;> rw [h]

lemma inv_begin (s : StoreState) (v : String)
    (hnd : (s.data.APIKeys.map APIKey.ID).Nodup)
    (hinv : InflightInv s) : InflightInv ((beginRequest s v).2) := by
  rcases beginRequest_state s v with h | ⟨key, hmem, hc, hlt, h⟩
  · rw [h]; exact hinv
  · rw [h]
    constructor
    · intro id
      dsimp only
      by_cases hid : id = key.ID
      · subst hid
        simp only [if_pos rfl]
        have := hinv.1 key.ID
        omega
      · simp only [if_neg hid]
        exact hinv.1 id
    · intro k hk hkl
      dsimp only at hk ⊢
      by_cases hid : k.ID = key.ID
      · have hkeq : k = key := List.inj_on_of_nodup_map hnd hk hmem hid
        subst hkeq
        simp only [if_pos rfl]
        omega
      · simp only [if_neg hid]
        exact hinv.2 k hk hkl

lemma endRequestKeys_map_configOf (fl : String → Int) (v : String) (c : Bool) (l : List APIKey) :
    ((endRequestKeys fl v c l).1).map configOf = l.map configOf := by
  induction l with
  | nil => rfl
  | cons k rest ih =>
    by_cases h : k.Key = v
    · cases c <;> simp [endRequestKeys, h, configOf]
    · simp [endRequestKeys, h, ih]

lemma endRequestKeys_inflight_le (fl : String → Int) (v : String) (c : Bool) (l : List APIKey)
    (id : String) :
    (endRequestKeys fl v c l).2 id ≤ fl id ∧
    (0 ≤ fl id → 0 ≤ (endRequestKeys fl v c l).2 id) := by
  induction l with
  | nil => exact ⟨le_refl _, fun h => h⟩
  | cons k rest ih =>
    by_cases h : k.Key = v
    · by_cases hd : 0 < k.ConcurrencyLimit ∧ 0 < fl k.ID
      · by_cases hid : id = k.ID
        · subst hid
          simp only [endRequestKeys, if_pos h, if_pos hd, if_pos rfl]
          omega
        · simp only [endRequestKeys, if_pos h, if_pos hd, if_neg hid]
          exact ⟨le_rfl, fun hh => hh⟩
      · simp only [endRequestKeys, if_pos h, if_neg hd]
        exact ⟨le_rfl, fun hh => hh⟩
    · simp only [endRequestKeys, if_neg h]
      exact ih

lemma endRequestKeys_mem (fl : String → Int) (v : String) (c : Bool) (l : List APIKey)
    (k : APIKey) (hk : k ∈ (endRequestKeys fl v c l).1) :
    ∃ k0 ∈ l, configOf k0 = configOf k := by
  have h1 : configOf k ∈ ((endRequestKeys fl v c l).1).map configOf :=
    List.mem_map_of_mem _ hk
  rw [endRequestKeys_map_configOf] at h1
  obtain ⟨k0, hk0, he⟩ := List.mem_map.mp h1
  exact ⟨k0, hk0, he⟩

lemma inv_end (s : StoreState) (v : String) (c : Bool)
    (hinv : InflightInv s) : InflightInv (endRequest s v c) := by
  unfold endRequest
  by_cases hv : goTrim v = ""
  · simpa [hv] using hinv
  · simp only [if_neg hv]
    constructor
    · intro id
      exact (endRequestKeys_inflight_le s.inflight (goTrim v) c s.data.APIKeys id).2 (hinv.1 id)
    · intro k hk hkl
      obtain ⟨k0, hk0, hcfg⟩ := endRequestKeys_mem s.inflight (goTrim v) c s.data.APIKeys k hk
      have hid := congrArg APIKey.ID hcfg
      have hcl := congrArg APIKey.ConcurrencyLimit hcfg
      dsimp only [configOf] at hid hcl
      have h1 := (endRequestKeys_inflight_le s.inflight (goTrim v) c s.data.APIKeys k.ID).1
      have h2 : s.inflight k0.ID ≤ k0.ConcurrencyLimit := hinv.2 k0 hk0 (by omega)
      rw [hid, hcl] at h2
      exact le_trans h1 h2

lemma applyOp_map_ID (s : StoreState) (op : StoreOp) :
    ((applyOp s op).data.APIKeys).map APIKey.ID = s.data.APIKeys.map APIKey.ID := by
  cases op with
  | beginReq v => rw [show (applyOp s (.beginReq v)) = (beginRequest s v).2 from rfl,
      beginRequest_data]
  | endReq v c =>
    show ((endRequest s v c).data.APIKeys).map APIKey.ID = _
    unfold endRequest
    by_cases hv : goTrim v = ""
    · simp [hv]
    · simp only [if_neg hv]
      have h := congrArg (List.map APIKey.ID)
        (endRequestKeys_map_configOf s.inflight (goTrim v) c s.data.APIKeys)
      have hcomp : APIKey.ID ∘ configOf = APIKey.ID := funext fun _ => rfl
      rwa [List.map_map, List.map_map, hcomp] at h

lemma inv_applyOp (s : StoreState) (op : StoreOp)
    (hnd : (s.data.APIKeys.map APIKey.ID).Nodup)
    (hinv : InflightInv s) : InflightInv (applyOp s op) := by
  cases op with
  | beginReq v => exact inv_begin s v hnd hinv
  | endReq v c => exact inv_end s v c hinv

lemma inv_runOps (s : StoreState) (ops : List StoreOp)
    (hnd : (s.data.APIKeys.map APIKey.ID).Nodup)
    (hinv : InflightInv s) : InflightInv (runOps s ops) := by
  induction ops generalizing s with
  | nil => exact hinv
  | cons op rest ih =>
    exact ih (applyOp s op)
      (by rw [applyOp_map_ID]; exact hnd)
      (inv_applyOp s op hnd hinv)

/-- Claim C1: starting from a fresh in-flight counter, over any sequence of
admission operations (`BeginRequest` / `EndRequest`, the serialised view of
arbitrarily interleaved concurrent callers), for every API key with a
positive concurrency ceiling N the in-flight count for that key's identifier
stays in `[0, N]` — successful admissions without a matching completion never
exceed N and the count is never negative.  (Key identifiers are assumed
pairwise distinct, as the store's upsert path guarantees.) -/
theorem C1_concurrency_bound (d : Data) (ops : List StoreOp)
    (hnd : (d.APIKeys.map APIKey.ID).Nodup) :
    ∀ k ∈ (runOps ⟨d, fun _ => 0⟩ ops).data.APIKeys, 0 < k.ConcurrencyLimit →
      0 ≤ (runOps ⟨d, fun _ => 0⟩ ops).inflight k.ID ∧
      (runOps ⟨d, fun _ => 0⟩ ops).inflight k.ID ≤ k.ConcurrencyLimit := by
  have h := inv_runOps ⟨d, fun _ => 0⟩ ops hnd
    ⟨fun _ => le_refl 0, fun k _ hkl => by simpa using le_of_lt hkl⟩
  exact fun k hk hkl => ⟨h.1 k.ID, h.2 k hk hkl⟩

def kC1 : APIKey := ⟨"id1", "tok1", "", "", true, 0, 0, 1, false, 0⟩

def dC1 : Data := ⟨1, 0, [], [kC1]⟩

def opsC1 : List StoreOp := [.beginReq "tok1", .beginReq "tok1"]

theorem C1_concurrency_bound_witness :
    (dC1.APIKeys.map APIKey.ID).Nodup ∧
    (runOps ⟨dC1, fun _ => 0⟩ opsC1).inflight "id1" = 1 ∧
    (∀ k ∈ (runOps ⟨dC1, fun _ => 0⟩ opsC1).data.APIKeys, 0 < k.ConcurrencyLimit →
      0 ≤ (runOps ⟨dC1, fun _ => 0⟩ opsC1).inflight k.ID ∧
      (runOps ⟨dC1, fun _ => 0⟩ opsC1).inflight k.ID ≤ k.ConcurrencyLimit) :=
  ⟨by decide, by decide, C1_concurrency_bound dC1 opsC1 (by decide)⟩

/-- The request surface read by the credential extractors: a header lookup
(modelling `http.Header.Get`), the two query parameters, and whether
`r.URL` is non-nil. -/
structure Request where
  header : String → String
  queryKey : String
  queryAuthToken : String
  hasURL : Bool

/-- The header/query cascade both extractors fall through to after the
`Authorization` header checks (the code of this cascade is textually
identical in `extractKeyFromRequest` and the access provider's
`extractAPIKey`). -/
def extractAfterAuth (r : Request) : String × String :=
  let v1 := goTrim (r.header "X-Api-Key")
  if v1 ≠ "" then (v1, "x-api-key")
  else
    let vg := goTrim (r.header "X-Goog-Api-Key")
    if vg ≠ "" then (vg, "x-goog-api-key")
    else
      let v2 := goTrim (r.header "X-API-Key")
      if v2 ≠ "" then (v2, "x-api-key")
      else if r.hasURL = true then
        let qk := goTrim r.queryKey
        if qk ≠ "" then (qk, "query-key")
        else
          let qt := goTrim r.queryAuthToken
          if qt ≠ "" then (qt, "query-auth-token")
          else ("", "")
      else ("", "")

/-- Embedding of `extractKeyFromRequest` (package mj3gc): Bearer token, else
raw non-Basic Authorization value, else the header/query cascade. -/
def extractKeyFromRequest (r : Request) : String × String :=
  let ah := r.header "Authorization"
  if ah ≠ "" then
    let parts := splitN2Space ah
    if parts.length = 2 ∧ equalFold (parts.headD "") "bearer" = true then
      (goTrim (parts.getD 1 ""), "authorization")
    else if goStartsWith (goToLower ah) "basic " = false then
      (goTrim ah, "authorization")
    else extractAfterAuth r
  else extractAfterAuth r

/-- Embedding of the access provider's `extractAPIKey`
(mj3gc_access/provider.go): Bearer token, else the raw Authorization value —
with no Basic-scheme exclusion — else the header/query cascade. -/
def extractAPIKey (r : Request) : String × String :=
  let ah := r.header "Authorization"
  if ah ≠ "" then
    let parts := splitN2Space ah
    if parts.length = 2 ∧ equalFold (parts.headD "") "bearer" = true then
      (goTrim (parts.getD 1 ""), "authorization")
    else (goTrim ah, "authorization")
  else extractAfterAuth r

/-- Embedding of `isStrictSource` (mj3gc_access/provider.go). -/
def isStrictSource (source : String) : Bool :=
  source == "authorization" || source == "x-api-key"

/-- The errors the access provider can return. -/
inductive AccessErr where
  | noCredentials
  | invalidCredential
deriving DecidableEq

/-- Embedding of `provider.Authenticate` (mj3gc_access/provider.go) for a
non-nil provider and request: extract, resolve against the store's key list,
check the enabled flag, then the trust policy. -/
def authenticate (keys : List APIKey) (r : Request) : Except AccessErr APIKey :=
  let vs := extractAPIKey r
  if vs.1 = "" then .error .noCredentials
  else
    match findAPIKey keys vs.1 with
    | none => .error .invalidCredential
    | some k =>
      if k.Enabled = false then .error .invalidCredential
      else if k.CompatibilityMode = false ∧ isStrictSource vs.2 = false then
        .error .invalidCredential
      else .ok k

/-- Claim C4: for a resolved, enabled API key, the access check accepts the
credential iff its extraction source is strict or the key has
`compatibilityMode` enabled; the strict sources are exactly `authorization`
and `x-api-key`, while `x-goog-api-key`, `query-key` and `query-auth-token`
are not strict. -/
theorem C4_trust_policy (keys : List APIKey) (r : Request) (k : APIKey)
    (hv : (extractAPIKey r).1 ≠ "")
    (hfind : findAPIKey keys (extractAPIKey r).1 = some k)
    (hen : k.Enabled = true) :
    (authenticate keys r = .ok k ↔
      (isStrictSource (extractAPIKey r).2 = true ∨ k.CompatibilityMode = true)) ∧
    isStrictSource "authorization" = true ∧
    isStrictSource "x-api-key" = true ∧
    isStrictSource "x-goog-api-key" = false ∧
    isStrictSource "query-key" = false ∧
    isStrictSource "query-auth-token" = false := by
  refine ⟨?_, rfl, rfl, rfl, rfl, rfl⟩
  cases hcm : k.CompatibilityMode <;> cases hst : isStrictSource (extractAPIKey r).2 <;>
    simp [authenticate, hv, hfind, hen, hcm, hst]

def kC4 : APIKey := ⟨"id4", "qtok", "", "", true, 0, 0, 0, true, 0⟩

def kC4n : APIKey := ⟨"id4n", "qtokn", "", "", true, 0, 0, 0, false, 0⟩

def rC4 : Request := ⟨fun _ => "", "qtok", "", true⟩

def rC4n : Request := ⟨fun _ => "", "qtokn", "", true⟩

theorem C4_trust_policy_witness :
    extractAPIKey rC4 = ("qtok", "query-key") ∧
    authenticate [kC4] rC4 = .ok kC4 ∧
    authenticate [kC4n] rC4n = .error .invalidCredential := by
  refine ⟨by rfl, ?_, by rfl⟩
  exact (C4_trust_policy [kC4] rC4 kC4 (by decide) (by rfl) rfl).1.mpr (Or.inr rfl)

def reqBasic : Request :=
  ⟨fun h => if h = "Authorization" then "Basic abc" else "", "", "", false⟩

/-- Claim C5 counterexample: at a request whose only credential carrier is
`Authorization: Basic abc`, the access provider's `extractAPIKey` (one of the
two extractors the claim covers) returns that raw Basic header value tagged
`authorization`, so a Basic Authorization header DOES yield a credential from
that header there — while `extractKeyFromRequest` correctly yields none. -/
theorem C5_counterexample :
    extractAPIKey reqBasic = ("Basic abc", "authorization") ∧
    extractKeyFromRequest reqBasic = ("", "") := by
  constructor <;> rfl

/-- Claim C5 (amended): for `extractKeyFromRequest` the claim holds as
stated — an Authorization header that is present, not Bearer and not Basic
yields the trimmed raw value tagged `authorization`, and a Basic header
yields nothing from that header (the extractor falls through to the other
carriers); the access provider's `extractAPIKey`, however, returns the
trimmed raw value tagged `authorization` for every present non-Bearer
Authorization header, including Basic ones. -/
theorem C5_amended (r : Request)
    (h1 : r.header "Authorization" ≠ "")
    (h2 : ¬ ((splitN2Space (r.header "Authorization")).length = 2 ∧
        equalFold ((splitN2Space (r.header "Authorization")).headD "") "bearer" = true)) :
    (goStartsWith (goToLower (r.header "Authorization")) "basic " = false →
      extractKeyFromRequest r = (goTrim (r.header "Authorization"), "authorization")) ∧
    (goStartsWith (goToLower (r.header "Authorization")) "basic " = true →
      extractKeyFromRequest r = extractAfterAuth r) ∧
    extractAPIKey r = (goTrim (r.header "Authorization"), "authorization") := by
  refine ⟨fun hb => ?_, fun hb => ?_, ?_⟩
  · simp only [extractKeyFromRequest]
    rw [if_pos h1, if_neg h2, if_pos hb]
  · simp only [extractKeyFromRequest]
    rw [if_pos h1, if_neg h2, if_neg (by simp [hb])]
  · simp only [extractAPIKey]
    rw [if_pos h1, if_neg h2]

def reqToken : Request :=
  ⟨fun h => if h = "Authorization" then "Token abc" else "", "", "", false⟩

theorem C5_amended_witness :
    extractKeyFromRequest reqToken = ("Token abc", "authorization") ∧
    extractAPIKey reqToken = ("Token abc", "authorization") := by
  have h := C5_amended reqToken (by decide) (by decide)
  exact ⟨h.1 (by decide), h.2.2⟩

/-- The backing file's state as `Store.Load`'s read-and-decode step sees it:
absent, unreadable, present but undecodable, or decoding to a `Data` value
(a JSON field missing from the payload decodes to the Go zero value). -/
inductive FileState where
  | absent
  | readFail
  | malformed
  | wellFormed (d : Data)

/-- Embedding of `Store.Load` on a store whose configured path is `path`:
absent file → fresh version-1 Record Set stamped `now`; read or decode
failure → the error; otherwise the decoded Record Set, with a zero version
normalized to 1. -/
def load (path : String) (now : Int) (fs : FileState) : Except StoreErr Data :=
  if path = "" then .error .invalidConfiguration
  else
    match fs with
    | .absent => .ok ⟨1, now, [], []⟩
    | .readFail => .error .ioError
    | .malformed => .error .decodeError
    | .wellFormed d => .ok (if d.Version = 0 then { d with Version := 1 } else d)

/-- Embedding of `Store.snapshotLocked`: a `Data` literal that copies
`Version`, `Users` and `APIKeys`; the `UpdatedAt` field is not listed in the
Go composite literal and is therefore the zero time. -/
def snapshotLocked (d : Data) : Data :=
  { Version := d.Version, UpdatedAt := 0, Users := d.Users, APIKeys := d.APIKeys }

/-- Embedding of `Store.Snapshot` for a non-nil store. -/
def snapshot (d : Data) : Data := snapshotLocked d

/-- Embedding of `Store.Save`'s effect on the backing file when every I/O
step succeeds: the committed payload is the snapshot stamped with the save
time (serialization is modelled as the identity on records; on any failure
the canonical file is untouched, which the model expresses by returning an
error and no payload). -/
def save (path : String) (d : Data) (now : Int) : Except StoreErr Data :=
  if path = "" then .error .invalidConfiguration
  else .ok { snapshotLocked d with UpdatedAt := now }

/-- Embedding of `Store.UpsertAPIKey`; `freshID` stands for the random
identifier `newID "key"` would generate, `now` for `time.Now()`. -/
def upsertAPIKey (d : Data) (key : APIKey) (freshID : String) (now : Int) :
    Except StoreErr APIKey × Data :=
  if goTrim key.Key = "" then (.error .validationFailure, d)
  else
    let key := if key.CreatedAt = 0 then { key with CreatedAt := now } else key
    if d.APIKeys.any (fun e => e.Key == key.Key && e.ID != key.ID) = true then
      (.error .duplicateAPIKey, d)
    else if key.ID = "" then
      let key := { key with ID := freshID }
      (.ok key, { d with APIKeys := d.APIKeys ++ [key] })
    else
      match d.APIKeys.findIdx? (fun e => e.ID == key.ID) with
      | some i => (.ok key, { d with APIKeys := d.APIKeys.set i key })
      | none => (.ok key, { d with APIKeys := d.APIKeys ++ [key] })

def kC6a : APIKey := ⟨"", "k", "", "", true, 0, 0, 0, false, 1⟩

def dC6 : Data := ⟨1, 0, [], [kC6a]⟩

def kC6b : APIKey := ⟨"", "k", "lbl", "", true, 0, 0, 0, false, 3⟩

/-- Claim C6 counterexample: when the stored key's identifier is empty and
the upserted key's identifier is also empty (a case the claim's "empty
identifier" alternative covers), the duplicate scan's `existing.ID != key.ID`
test does not fire: the upsert succeeds and appends a second key with the
very same credential string, mutating the Record Set. -/
theorem C6_counterexample :
    (upsertAPIKey dC6 kC6b "key_f" 9).1 =
      .ok ⟨"key_f", "k", "lbl", "", true, 0, 0, 0, false, 3⟩ ∧
    (upsertAPIKey dC6 kC6b "key_f" 9).2.APIKeys.length = 2 := ⟨rfl, rfl⟩

/-- Claim C6 (amended): if the store contains K1 and a key K2 with exactly
K1's credential string is upserted, `UpsertAPIKey` fails with
`DuplicateAPIKey` and the Record Set is left completely unchanged — provided
K2's identifier differs from K1's (when K2's identifier is empty this means
K1's is nonempty) and the shared credential is not blank after trimming
(a blank credential is rejected by the earlier validation step instead,
likewise without mutation). -/
theorem C6_duplicate_rejected (d : Data) (k1 k2 : APIKey) (fid : String) (t : Int)
    (h1 : k1 ∈ d.APIKeys) (h2 : k2.Key = k1.Key)
    (h3 : goTrim k2.Key ≠ "") (h4 : k2.ID ≠ k1.ID) :
    upsertAPIKey d k2 fid t = (.error .duplicateAPIKey, d) := by
  have hkey : (if k2.CreatedAt = 0 then { k2 with CreatedAt := t } else k2).Key = k2.Key := by
    by_cases h : k2.CreatedAt = 0 <;> simp [h]
  have hid : (if k2.CreatedAt = 0 then { k2 with CreatedAt := t } else k2).ID = k2.ID := by
    by_cases h : k2.CreatedAt = 0 <;> simp [h]
  have hdup : d.APIKeys.any (fun e =>
      e.Key == (if k2.CreatedAt = 0 then { k2 with CreatedAt := t } else k2).Key &&
      e.ID != (if k2.CreatedAt = 0 then { k2 with CreatedAt := t } else k2).ID) = true := by
    rw [List.any_eq_true]
    refine ⟨k1, h1, ?_⟩
    rw [hkey, hid]
    simp [h2, bne_iff_ne, Ne.symm h4]
  simp only [upsertAPIKey]
  rw [if_neg h3, if_pos hdup]

def kC6c : APIKey := ⟨"key_1", "k2", "", "", true, 0, 0, 0, false, 1⟩

def dC6w : Data := ⟨1, 0, [], [kC6c]⟩

def kC6d : APIKey := ⟨"", "k2", "", "", true, 0, 0, 0, false, 2⟩

theorem C6_duplicate_rejected_witness :
    upsertAPIKey dC6w kC6d "key_9" 5 = (.error .duplicateAPIKey, dC6w) :=
  C6_duplicate_rejected dC6w kC6c kC6d "key_9" 5 (by decide) rfl (by decide) (by decide)

/-- Claim C7 counterexample: a backing file whose decoded version is negative
is accepted by a successful Load unchanged — the in-memory version is then
-1, which is not ≥ 1 (only a zero version is normalized). -/
theorem C7_counterexample :
    load "p" 9 (.wellFormed ⟨-1, 2, [], []⟩) = .ok ⟨-1, 2, [], []⟩ ∧
    ¬ (1 : Int) ≤ -1 := ⟨rfl, by decide⟩

/-- Claim C7 (amended): on a store with a configured path, Load of an absent
file succeeds with an empty version-1 Record Set; a decoded version of zero
(including a missing version field, which decodes to zero) is normalized
to 1; and after every successful Load the version is ≥ 1 provided the
decoded version was non-negative — a negative stored version is passed
through unchanged. -/
theorem C7_load_version (path : String) (now : Int) (hp : path ≠ "") :
    load path now .absent = .ok ⟨1, now, [], []⟩ ∧
    (∀ d : Data, d.Version = 0 →
      load path now (.wellFormed d) = .ok { d with Version := 1 }) ∧
    (∀ d res : Data, load path now (.wellFormed d) = .ok res →
      0 ≤ d.Version → 1 ≤ res.Version) := by
  refine ⟨by simp [load, hp], fun d hd => by simp [load, hp, hd], fun d res hl hd => ?_⟩
  by_cases h0 : d.Version = 0
  · simp only [load, if_neg hp, h0, if_true, Except.ok.injEq] at hl
    rw [← hl]
  · simp only [load, if_neg hp, h0, if_false, Except.ok.injEq] at hl
    rw [← hl]
    omega

theorem C7_load_version_witness :
    load "p" 4 .absent = .ok ⟨1, 4, [], []⟩ ∧
    load "p" 4 (.wellFormed ⟨0, 7, [], []⟩) = .ok ⟨1, 7, [], []⟩ := by
  have h := C7_load_version "p" 4 (by decide)
  exact ⟨h.1, by simpa using h.2.1 ⟨0, 7, [], []⟩ rfl⟩

def dC8 : Data :=
  ⟨3, 5, [⟨"u1", "alice", "h", "owner", false, 2⟩], [⟨"id8", "tok8", "", "u1", true, 0, 0, 0, false, 1⟩]⟩

/-- Claim C8 counterexample: `snapshotLocked`'s composite literal omits
`UpdatedAt`, so the snapshot's last-updated timestamp is the zero time, not
the store's — at a store whose `UpdatedAt` is 5 the returned copy's is 0. -/
theorem C8_counterexample :
    dC8.UpdatedAt = 5 ∧ (snapshot dC8).UpdatedAt = 0 ∧
    (snapshot dC8).UpdatedAt ≠ dC8.UpdatedAt := ⟨rfl, rfl, by decide⟩

/-- Claim C8 (amended): `Snapshot` returns a Record Set agreeing with the
store's on version, users and API keys (the sequences copied by value, so in
this value-level model later mutations of the store cannot affect a returned
snapshot); the last-updated timestamp however is NOT copied — the returned
copy's `UpdatedAt` is the zero time. -/
theorem C8_snapshot_fields (d : Data) :
    (snapshot d).Version = d.Version ∧ (snapshot d).Users = d.Users ∧
    (snapshot d).APIKeys = d.APIKeys ∧ (snapshot d).UpdatedAt = 0 :=
  ⟨rfl, rfl, rfl, rfl⟩

/-- Claim C9 counterexample: a store whose in-memory version is 0 (exactly
the state of a fresh `NewStore` that has never loaded) saves a version-0
payload, and Load on a fresh store normalizes that to version 1 — the
version is not preserved by the round trip. -/
theorem C9_counterexample :
    save "p" ⟨0, 7, [], []⟩ 9 = .ok ⟨0, 9, [], []⟩ ∧
    load "p" 11 (.wellFormed ⟨0, 9, [], []⟩) = .ok ⟨1, 9, [], []⟩ ∧
    (1 : Int) ≠ 0 := ⟨rfl, rfl, by decide⟩

/-- Claim C9 (amended): with a configured path and a nonzero in-memory
version, Save followed by Load on a fresh store reproduces an equivalent
Record Set: the same users and API keys by value, the version preserved, and
`updated_at` advanced to the time stamped at Save. -/
theorem C9_roundTrip (path : String) (d : Data) (t tl : Int)
    (hp : path ≠ "") (hv : d.Version ≠ 0) :
    ∃ c, save path d t = .ok c ∧
      load path tl (.wellFormed c) = .ok ⟨d.Version, t, d.Users, d.APIKeys⟩ := by
  refine ⟨⟨d.Version, t, d.Users, d.APIKeys⟩, ?_, ?_⟩
  · simp [save, snapshotLocked, hp]
  · simp [load, hp, hv]

def dC9 : Data :=
  ⟨2, 5, [⟨"u9", "bob", "h", "user", false, 1⟩], [⟨"id9", "tok9", "", "u9", true, 7, 3, 2, true, 1⟩]⟩

theorem C9_roundTrip_witness :
    ∃ c, save "p" dC9 6 = .ok c ∧
      load "p" 8 (.wellFormed c) = .ok ⟨2, 6, dC9.Users, dC9.APIKeys⟩ :=
  C9_roundTrip "p" dC9 6 8 (by decide) (by decide)

end Mj3gc
